import Mathlib

/-!
Verification of the relationship-direction corrector in
`cypher_relationships.py`.  Python strings are modelled as `List Char`
(`Str`), Python exceptions as `Except PyError`, regex scanning by an
executable matcher that is faithful to the backtracking semantics of the
fixed pattern in `PATTERN_CONFIG`.
-/

namespace CypherDir

abbrev Str := List Char

abbrev Schema := List (List Str)

inductive PyError where
  | indexError
  | unboundLocalError
deriving DecidableEq, Repr

instance {ε α : Type} [DecidableEq ε] [DecidableEq α] : DecidableEq (Except ε α)
  | .ok a, .ok b =>
    if h : a = b then .isTrue (by rw [h]) else .isFalse (by simp [h])
  | .error a, .error b =>
    if h : a = b then .isTrue (by rw [h]) else .isFalse (by simp [h])
  | .ok _, .error _ => .isFalse (by simp)
  | .error _, .ok _ => .isFalse (by simp)

/-- The backtick character (written by code to avoid quoting issues). -/
def bq : Char := Char.ofNat 96

/-- Left curly brace. -/
def lbrace : Char := Char.ofNat 123

/-- Right curly brace. -/
def rbrace : Char := Char.ofNat 125

/-! ## Python string primitives -/

/-- First split of `s` around the leftmost occurrence of `sep`. -/
def splitOnce (sep : Str) : Str → Option (Str × Str)
  | [] => if sep.isPrefixOf [] then some ([], ([] : Str).drop sep.length) else none
  | c :: t =>
    if sep.isPrefixOf (c :: t) then some ([], (c :: t).drop sep.length)
    else (splitOnce sep t).map (fun p => (c :: p.1, p.2))

theorem splitOnce_length {sep s a b : Str} (hsep : sep ≠ [])
    (h : splitOnce sep s = some (a, b)) : b.length < s.length := by
  induction s generalizing a b with
  | nil =>
    have hpre : ¬ sep.isPrefixOf ([] : Str) := by
      cases sep with
      | nil => exact absurd rfl hsep
      | cons c t => simp [List.isPrefixOf]
    simp [splitOnce, hpre] at h
  | cons c t ih =>
    by_cases hp : sep.isPrefixOf (c :: t)
    · have hlen : 0 < sep.length := List.length_pos.mpr hsep
      rw [splitOnce, if_pos hp] at h
      injection h with h1
      obtain ⟨h2, h3⟩ := Prod.mk.inj h1
      subst h3
      simp [List.length_drop]
      omega
    · rw [splitOnce, if_neg hp] at h
      rcases Option.map_eq_some'.mp h with ⟨⟨p1, p2⟩, hsp, heq⟩
      obtain ⟨h2, h3⟩ := Prod.mk.inj heq
      subst h3
      have := ih hsp
      simp
      omega

/-- Fuel-driven worker for `pySplit` (structural recursion so that the
kernel can evaluate it; `s.length` fuel always suffices). -/
def pySplitF (sep : Str) : Nat → Str → List Str
  | 0, s => [s]
  | fuel + 1, s =>
    match splitOnce sep s with
    | none => [s]
    | some (a, b) => a :: pySplitF sep fuel b

/-- Python `str.split(sep)` for a non-empty separator. -/
def pySplit (s sep : Str) : List Str :=
  if sep = [] then [s] else pySplitF sep s.length s

/-- Fuel-driven worker for `pyReplace` (`s.length` fuel always
suffices: every step shortens the remaining text). -/
def pyReplaceF (old new : Str) : Nat → Str → Str
  | 0, s => s
  | fuel + 1, s =>
    if old ≠ [] ∧ old.isPrefixOf s then
      new ++ pyReplaceF old new fuel (s.drop old.length)
    else
      match s with
      | [] => []
      | c :: t => c :: pyReplaceF old new fuel t

/-- Python `str.replace(old, new)`; callers never pass an empty `old`
(for which CPython would interleave `new` between characters). -/
def pyReplace (s old new : Str) : Str := pyReplaceF old new s.length s

/-- Python `str.lstrip(chars)`. -/
def pyLstrip (s chars : Str) : Str := s.dropWhile (fun c => chars.contains c)

/-- Python `str.rstrip(chars)`. -/
def pyRstrip (s chars : Str) : Str :=
  ((s.reverse).dropWhile (fun c => chars.contains c)).reverse

/-- Python `str.strip(chars)`. -/
def pyStrip (s chars : Str) : Str := pyRstrip (pyLstrip s chars) chars

/-- Bool test: `pat` occurs somewhere in `s` (Python `pat in s`). -/
def containsSub (pat s : Str) : Bool :=
  (List.range (s.length + 1)).any (fun i => pat.isPrefixOf (s.drop i))

/-- Python truthiness of an optional string (regex group). -/
def truthyOpt : Option Str → Bool
  | none => false
  | some s => !s.isEmpty

/-- Python `a or b` on two optional strings. -/
def pyOr (a b : Option Str) : Option Str :=
  match a with
  | none => b
  | some s => if s.isEmpty then b else some s

/-! ## The relationship pattern scanner

The source builds one big verbose regex from `PATTERN_CONFIG` and scans with
a zero-width lookahead (`(?=(?P<whole_relationship>...))`) so that
overlapping occurrences are all found.  The matcher below implements that
fixed pattern with Python's backtracking preferences.  The character
classes of the pattern: -/

/-- Class `[a-zA-Z0-9_]` (variable names). -/
def chA (c : Char) : Bool :=
  (decide ('a' ≤ c) && decide (c ≤ 'z')) ||
  (decide ('A' ≤ c) && decide (c ≤ 'Z')) ||
  (decide ('0' ≤ c) && decide (c ≤ '9')) || c == '_'

/-- Class `[:!a-zA-Z0-9_\x60]` (node labels). -/
def chB (c : Char) : Bool := chA c || c == ':' || c == '!' || c == bq

/-- Class `[:!a-zA-Z0-9_|\x60]` (relationship labels). -/
def chBR (c : Char) : Bool := chB c || c == '|'

/-- Class `\s` (ASCII). -/
def chWS (c : Char) : Bool :=
  c == ' ' || c == '\t' || c == '\n' || c == '\x0d' || c == '\x0b' || c == '\x0c'

/-- Class `[.0-9]` (hop spec tail). -/
def chHop (c : Char) : Bool :=
  c == '.' || (decide ('0' ≤ c) && decide (c ≤ '9'))

/-- Index after the maximal run of class `p` starting at `i` (a greedy
`[..]*` whose continuation can never succeed on a ceded character). -/
def munch (p : Char → Bool) (s : Str) (i : Nat) : Nat :=
  i + ((s.drop i).takeWhile p).length

/-- The substring `s[i:j]` as a list. -/
def extract (s : Str) (i j : Nat) : Str := (s.drop i).take (j - i)

/-- Positions `j ≥ i` with `s[j] = rbrace` reachable by the lazy `.*?`
(i.e. with no newline strictly before them), in increasing order. -/
def closers (s : Str) (i : Nat) : List Nat :=
  go (s.drop i) i
where
  go : Str → Nat → List Nat
    | [], _ => []
    | c :: t, j =>
      if c == '\n' then []
      else (if c == rbrace then [j] else []) ++ go t (j + 1)

/-- All end positions of `(\x7b.*?\x7d)*` starting at `i`, in Python's
backtracking preference order (more repetitions first; within one
repetition the lazy body prefers the nearest closing brace). -/
def propsCands (s : Str) : Nat → Nat → List Nat
  | 0, i => [i]
  | fuel + 1, i =>
    (if s[i]? == some lbrace then
       ((closers s (i + 1)).map (fun j => propsCands s fuel (j + 1))).flatten
     else []) ++ [i]

/-- Parse the deterministic head of a node pattern at `i`:
`\(` variable name, labels, `\s*`.  Returns the two captures and the
position where the props group starts. -/
def parseNodePre (s : Str) (i : Nat) : Option (Str × Str × Nat) :=
  if s[i]? == some '(' then
    let i1 := munch chA s (i + 1)
    let i2 := munch chB s i1
    let i3 := munch chWS s i2
    some (extract s (i + 1) i1, extract s i1 i2, i3)
  else none

/-- Match `node1_pattern` alone at position `i` (used by the
`detect_node_labels` finditer); returns variable name, raw labels and the
end position.  The pattern ends after the node, so the first props
candidate followed by `)` wins. -/
def matchNodeAt (s : Str) (i : Nat) : Option (Str × Str × Nat) :=
  (parseNodePre s i).bind fun x =>
    ((propsCands s (s.length + 1) x.2.2).find? (fun p => s[p]? == some ')')).map
      (fun p => (x.1, x.2.1, p + 1))

/-- The captures of one whole-relationship match that the Python code
reads (`group(...)` on the match object). -/
structure RelMatch where
  whole : Str
  node1_var_name : Str
  node1_labels : Str
  node2_var_name : Str
  node2_labels : Str
  rel_var_name : Str
  rel_labels : Str
  rel_hops : Str
  rel_left_arrow : Option Str
  rel_right_arrow : Option Str
deriving DecidableEq, Repr, Inhabited

/-- Final stage of a relationship match: the required `node2` starting at
`q4`, with its own props backtracking; on success the whole match record
is assembled. -/
def relFromNode2 (s : Str) (i : Nat) (v1 l1 : Str) (la : Option Str)
    (rv rl hops : Str) (ra : Option Str) (q4 : Nat) : Option RelMatch :=
  (parseNodePre s q4).bind fun x2 =>
  (propsCands s (s.length + 1) x2.2.2).findSome? fun p3 =>
  if s[p3]? == some ')' then
    some { whole := extract s i (p3 + 1)
           node1_var_name := v1, node1_labels := l1
           node2_var_name := x2.1, node2_labels := x2.2.1
           rel_var_name := rv, rel_labels := rl, rel_hops := hops
           rel_left_arrow := la, rel_right_arrow := ra }
  else none

/-- End of the hop-spec group `\*?[.0-9]*` starting at `p2`. -/
def relPropsH1 (s : Str) (p2 : Nat) : Nat :=
  munch chHop s (if s[p2]? == some '*' then p2 + 1 else p2)

/-- Position after the optional `]` following the hop spec. -/
def relPropsQr (s : Str) (p2 : Nat) : Nat :=
  if s[relPropsH1 s p2]? == some ']' then relPropsH1 s p2 + 1 else relPropsH1 s p2

/-- After one candidate end `p2` of the relationship props group: hop
spec, optional `]`, required `-`, optional `>` arrowhead, then `node2`. -/
def relFromProps (s : Str) (i : Nat) (v1 l1 : Str) (la : Option Str)
    (rv rl : Str) (p2 : Nat) : Option RelMatch :=
  if s[relPropsQr s p2]? == some '-' then
    if s[relPropsQr s p2 + 1]? == some '>' then
      relFromNode2 s i v1 l1 la rv rl (extract s p2 (relPropsH1 s p2))
        (some ['>']) (relPropsQr s p2 + 2)
    else
      relFromNode2 s i v1 l1 la rv rl (extract s p2 (relPropsH1 s p2))
        none (relPropsQr s p2 + 1)
  else none

/-- Position after the optional `[` of the relationship body. -/
def relQb (s : Str) (q1 : Nat) : Nat :=
  if s[q1 + 1]? == some '[' then q1 + 2 else q1 + 1

/-- End of the relationship variable name. -/
def relQv (s : Str) (q1 : Nat) : Nat := munch chA s (relQb s q1)

/-- End of the relationship labels. -/
def relQl (s : Str) (q1 : Nat) : Nat := munch chBR s (relQv s q1)

/-- End of the whitespace before the relationship props. -/
def relQw (s : Str) (q1 : Nat) : Nat := munch chWS s (relQl s q1)

/-- After the optional left arrowhead: required `-`, optional `[`,
variable name, labels, whitespace, then the props group candidates. -/
def relFromDash (s : Str) (i : Nat) (v1 l1 : Str) (la : Option Str)
    (q1 : Nat) : Option RelMatch :=
  if s[q1]? == some '-' then
    (propsCands s (s.length + 1) (relQw s q1)).findSome? fun p2 =>
      relFromProps s i v1 l1 la (extract s (relQb s q1) (relQv s q1))
        (extract s (relQv s q1) (relQl s q1)) p2
  else none

/-- The arrow part begins right after `node1`: optional `<` arrowhead. -/
def relFromArrow (s : Str) (i : Nat) (v1 l1 : Str) (q0 : Nat) :
    Option RelMatch :=
  if s[q0]? == some '<' then relFromDash s i v1 l1 (some ['<']) (q0 + 1)
  else relFromDash s i v1 l1 none q0

/-- Match the full relationship pattern (`node1 arrow node2`) anchored at
position `i`, with full backtracking through the three props groups. -/
def matchRelAt (s : Str) (i : Nat) : Option RelMatch :=
  (parseNodePre s i).bind fun x1 =>
  (propsCands s (s.length + 1) x1.2.2).findSome? fun p1 =>
  if s[p1]? == some ')' then relFromArrow s i x1.1 x1.2.1 (p1 + 1) else none

/-- `re.finditer` of the lookahead-wrapped relationship pattern: every
position is tried (matches are zero width), in increasing order. -/
def scanRels (s : Str) : List RelMatch :=
  (List.range s.length).filterMap (matchRelAt s)

/-- `re.finditer` of `node1_pattern` alone: leftmost non-overlapping
matches, yielding the variable-name and raw-labels captures. -/
def finditerNodesAux (s : Str) : Nat → Nat → List (Str × Str)
  | 0, _ => []
  | fuel + 1, i =>
    if i < s.length then
      match matchNodeAt s i with
      | some (v, l, e) => (v, l) :: finditerNodesAux s fuel e
      | none => finditerNodesAux s fuel (i + 1)
    else []

def finditerNodes (s : Str) : List (Str × Str) :=
  finditerNodesAux s (s.length + 1) 0

/-! ## The relationship record

A Python match produces a dict that is grown key by key; optional keys
(`is_correct`, `schema_match`) are modelled with `Option`. -/

structure NodeInfo where
  var_name : Str
  label1 : Str
deriving DecidableEq, Repr, Inhabited

structure Rel where
  m : RelMatch
  node1 : NodeInfo := default
  node2 : NodeInfo := default
  tup : Str × Str × Str := ([], [], [])
  direction : Option Str := none
  node_labels_same : Bool := false
  is_variable_length : Bool := false
  is_multi_label : Bool := false
  multi_labels : List Str := []
  is_negated_label : Bool := false
  is_correct : Option Bool := none
  schema_match : Option Bool := none
deriving DecidableEq, Repr, Inhabited

def mkRel (m : RelMatch) : Rel := { m := m }

/-! ## process_schema -/

/-- `process_schema`: split the schema text into tuples of fields (the
Python code performs no arity validation; a tuple is a `List Str`). -/
def process_schema (schema_text : Str) : Schema :=
  (pySplit (pyRstrip (pyLstrip (pyReplace schema_text [' '] []) ['(']) [')'])
      (")".toList ++ ",".toList ++ "(".toList)).map
    (fun item => pySplit item [','])

/-! ## detect_node_labels -/

/-- `x.lstrip(":").replace(backtick, "").split(":")` then first element:
the primary-label computation used throughout `detect_node_labels`. -/
def labelHead (labels : Str) : Str :=
  (pySplit (pyReplace (pyLstrip labels [':']) [bq] []) [':']).headD []

/-- Python dict insertion (first-insertion order kept, value updated). -/
def insertPy (m : List (Str × Str)) (kv : Str × Str) : List (Str × Str) :=
  if m.any (fun e => e.1 == kv.1) then
    m.map (fun e => if e.1 == kv.1 then (e.1, kv.2) else e)
  else m ++ [kv]

/-- Python `dict.get(k, d)`. -/
def dictGet (m : List (Str × Str)) (k d : Str) : Str :=
  match m.find? (fun e => e.1 == k) with
  | some e => e.2
  | none => d

/-- The (key, value) pairs generated by the dict comprehension of
`detect_node_labels`: first label of every labelled node in the text,
keyed by variable name, in text order. -/
def labeledNodeEntries (cypher_text : Str) : List (Str × Str) :=
  (finditerNodes cypher_text).filterMap
    (fun vl => if vl.2.isEmpty then none else some (vl.1, labelHead vl.2))

/-- The dict comprehension of `detect_node_labels`: later entries
overwrite earlier ones with the same key. -/
def node_label_map (cypher_text : Str) : List (Str × Str) :=
  (labeledNodeEntries cypher_text).foldl insertPy []

/-- `detect_node_labels`: set each node's variable name and first label,
falling back to the text-wide variable map when the inline label list is
empty. -/
def detect_node_labels (r : Rel) (cypher_text : Str) : Rel :=
  let n1 : NodeInfo := { var_name := r.m.node1_var_name, label1 := labelHead r.m.node1_labels }
  let n2 : NodeInfo := { var_name := r.m.node2_var_name, label1 := labelHead r.m.node2_labels }
  let map := node_label_map cypher_text
  let n1 := if n1.label1 = [] then { n1 with label1 := dictGet map n1.var_name [] } else n1
  let n2 := if n2.label1 = [] then { n2 with label1 := dictGet map n2.var_name [] } else n2
  { r with node1 := n1, node2 := n2 }

/-! ## detect_relationship_characteristics -/

/-- `re.sub(r"[\s:]*" with backtick, "", label)` deletes every whitespace,
colon and backtick character. -/
def subLabelChars (label : Str) : Str :=
  label.filter (fun c => !(chWS c || c == ':' || c == bq))

def detect_relationship_characteristics (r : Rel) : Rel :=
  { r with
    tup := (pyStrip r.node1.label1 [bq],
            pyReplace (pyLstrip r.m.rel_labels [':']) [bq] [],
            pyStrip r.node2.label1 [bq])
    direction := pyOr r.m.rel_left_arrow r.m.rel_right_arrow
    node_labels_same := r.node1.label1 == r.node2.label1
    is_variable_length :=
      (r.m.rel_hops == ['*']) ||
      (r.m.rel_hops.contains '*' && containsSub ['.', '.'] r.m.rel_hops)
    is_multi_label := r.m.rel_labels.contains '|'
    multi_labels := (pySplit r.m.rel_labels ['|']).map subLabelChars
    is_negated_label := (['!'].isPrefixOf (pyLstrip r.m.rel_labels [':'])) }

/-! ## transform_negated_to_multi_label -/

/-- Left-to-right effectful map, stopping at the first raised error
(the evaluation order of a Python list comprehension). -/
def mapME (f : α → Except PyError β) : List α → Except PyError (List β)
  | [] => .ok []
  | a :: l =>
    match f a with
    | .error e => .error e
    | .ok b =>
      match mapME f l with
      | .error e => .error e
      | .ok bs => .ok (b :: bs)

/-- `[item[i] for item in schema_lst]`: one schema column, raising
`IndexError` on a tuple that is too short. -/
def colM (i : Nat) (schema : Schema) : Except PyError (List Str) :=
  mapME (fun item =>
    match item[i]? with
    | some v => .ok v
    | none => .error .indexError) schema

def transform_negated_to_multi_label (r : Rel) (schema : Schema) :
    Except PyError Rel :=
  let negated := pyLstrip r.tup.2.1 ['!']
  match colM 1 schema with
  | .error e => .error e
  | .ok types =>
    .ok { r with multi_labels := types.filter (fun t => !(t == negated))
                 is_multi_label := true }

/-! ## schema matching -/

def make_left_to_right (r : Rel) : Str × Str × Str :=
  if r.direction == some ['<'] then (r.tup.2.2, r.tup.2.1, r.tup.1) else r.tup

def is_unfixable (r : Rel) : Bool :=
  !truthyOpt r.direction || r.node1.label1 == r.node2.label1 || r.is_variable_length

def is_complete (r : Rel) : Bool :=
  !(r.tup.1.isEmpty || r.tup.2.1.isEmpty || r.tup.2.2.isEmpty)

/-- `relationship["is_correct"] = True; relationship["schema_match"] = True`. -/
def setCorrect (r : Rel) : Rel := { r with is_correct := some true, schema_match := some true }

/-- `relationship["is_correct"] = False; relationship["schema_match"] = True`. -/
def setFlip (r : Rel) : Rel := { r with is_correct := some false, schema_match := some true }

/-- `relationship["schema_match"] = False`. -/
def setNoMatch (r : Rel) : Rel := { r with schema_match := some false }

/-- Tuple membership in the schema list (a 3-tuple equals a parsed schema
tuple iff that tuple also has exactly three equal fields). -/
def tupMem (t : Str × Str × Str) (schema : Schema) : Bool :=
  schema.contains [t.1, t.2.1, t.2.2]

/-- Body of `find_complete_tup_in_schema` over the oriented tuple. -/
def find_complete_core (r : Rel) (l2r : Str × Str × Str) (schema : Schema) :
    Except PyError Rel :=
  if tupMem l2r schema then .ok (setCorrect r)
  else if tupMem (l2r.2.2, l2r.2.1, l2r.1) schema then .ok (setFlip r)
  else .ok (setNoMatch r)

def find_complete_tup_in_schema (r : Rel) (schema : Schema) : Except PyError Rel :=
  find_complete_core r (make_left_to_right r) schema

/-- One membership test of `find_partial_tup_in_schema`: check `key`
against `zip(colM i, colM j)` (or a single column when `j` is `none`),
with the columns rebuilt, and raised errors, in Python's order. -/
def partialCheck (key : Str × Option Str) (i : Nat) :
    Option Nat → Schema → Except PyError Bool
  | some j, schema =>
    match colM i schema with
    | .error e => .error e
    | .ok ci =>
      match colM j schema with
      | .error e => .error e
      | .ok cj => .ok ((ci.zip cj).contains (key.1, key.2.getD []))
  | none, schema =>
    match colM i schema with
    | .error e => .error e
    | .ok ci => .ok (ci.contains key.1)

/-- Try the forward column pair, then the mirrored pair, with the three
possible verdicts of a partial lookup. -/
def partialBranch (r : Rel) (key : Str × Option Str) (fwd rev : Nat × Option Nat)
    (schema : Schema) : Except PyError Rel :=
  match partialCheck key fwd.1 fwd.2 schema with
  | .error e => .error e
  | .ok true => .ok (setCorrect r)
  | .ok false =>
    match partialCheck key rev.1 rev.2 schema with
    | .error e => .error e
    | .ok true => .ok (setFlip r)
    | .ok false => .ok (setNoMatch r)

/-- Body of `find_partial_tup_in_schema` over the oriented tuple and the
triple telling which of its fields are non-empty. -/
def find_partial_core (r : Rel) (l2r : Str × Str × Str)
    (pieces : Bool × Bool × Bool) (schema : Schema) : Except PyError Rel :=
  if pieces = (true, true, false) then
    partialBranch r (l2r.1, some l2r.2.1) (0, some 1) (2, some 1) schema
  else if pieces = (false, true, true) then
    partialBranch r (l2r.2.1, some l2r.2.2) (1, some 2) (1, some 0) schema
  else if pieces = (true, false, true) then
    partialBranch r (l2r.1, some l2r.2.2) (0, some 2) (2, some 0) schema
  else if pieces = (true, false, false) then
    partialBranch r (l2r.1, none) (0, none) (2, none) schema
  else if pieces = (false, false, true) then
    partialBranch r (l2r.2.2, none) (2, none) (0, none) schema
  else if pieces = (false, true, false) then
    match partialCheck (l2r.2.1, none) 1 none schema with
    | .error e => .error e
    | .ok true => .ok (setCorrect r)
    | .ok false => .ok (setNoMatch r)
  else .ok (setCorrect r)

def find_partial_tup_in_schema (r : Rel) (schema : Schema) : Except PyError Rel :=
  find_partial_core r (make_left_to_right r)
    (!(make_left_to_right r).1.isEmpty, !(make_left_to_right r).2.1.isEmpty,
      !(make_left_to_right r).2.2.isEmpty) schema

def find_single_label_relationship_in_schema (r : Rel) (schema : Schema) :
    Except PyError Rel :=
  if is_unfixable r then .ok (setCorrect r)
  else if is_complete r then find_complete_tup_in_schema r schema
  else find_partial_tup_in_schema r schema

/-- The per-label overwrite of the relationship tuple performed at the
top of the `find_relationship_in_schema` loop body. -/
def setTupFor (r : Rel) (l : Str) : Rel :=
  { r with tup := (r.node1.label1, l, r.node2.label1) }

/-- The loop body of `find_relationship_in_schema`: one candidate label at
a time, stopping at the first label whose lookup set `is_correct` to
`True`. -/
def find_rel_go (schema : Schema) : Rel → List Str → Except PyError Rel
  | r, [] => .ok r
  | r, l :: ls =>
    match find_single_label_relationship_in_schema (setTupFor r l) schema with
    | .error e => .error e
    | .ok r2 => if r2.is_correct.getD false then .ok r2 else find_rel_go schema r2 ls

def find_relationship_in_schema (r : Rel) (schema : Schema) : Except PyError Rel :=
  find_rel_go schema r r.multi_labels

/-! ## switch_direction -/

def switch_direction (cypher_text : Str) (r : Rel) : Except PyError Str :=
  if r.direction == some ['>'] then
    .ok (pyReplace cypher_text r.m.whole
      (pyReplace (pyReplace r.m.whole ['-', '>'] ['-']) [')', '-'] [')', '<', '-']))
  else if r.direction == some ['<'] then
    .ok (pyReplace cypher_text r.m.whole
      (pyReplace (pyReplace r.m.whole ['<', '-'] ['-']) ['-', '('] ['-', '>', '(']))
  else
    .error .unboundLocalError

/-! ## detect_relationships and the orchestrator -/

/-- The fully characterised relationship record of one match, before the
negation expansion. -/
def charRel (cypher_text : Str) (m : RelMatch) : Rel :=
  detect_relationship_characteristics (detect_node_labels (mkRel m) cypher_text)

def buildRel (cypher_text : Str) (schema : Schema) (m : RelMatch) :
    Except PyError Rel :=
  if (charRel cypher_text m).is_negated_label then
    transform_negated_to_multi_label (charRel cypher_text m) schema
  else .ok (charRel cypher_text m)

def detect_relationships (cypher_text : Str) (schema : Schema) :
    Except PyError (List Rel) :=
  mapME (buildRel cypher_text schema) (scanRels cypher_text)

/-- The `for rel in relationships` loop of
`fix_cypher_relationship_directions`: check the schema, reject on a
mismatch (setting the text to `""` and breaking), rewrite wrong
directions on the accumulating text. -/
def applyRels (schema : Schema) : Str → List Rel → Except PyError Str
  | text, [] => .ok text
  | text, r :: rest =>
    match find_relationship_in_schema r schema with
    | .error e => .error e
    | .ok r1 =>
      if r1.schema_match == some false then .ok []
      else
        match (if r1.is_correct == some false then switch_direction text r1
               else .ok text) with
        | .error e => .error e
        | .ok text1 => applyRels schema text1 rest

def fix_cypher_relationship_directions (cypher_text schema_text : Str) :
    Except PyError Str :=
  match detect_relationships cypher_text (process_schema schema_text) with
  | .error e => .error e
  | .ok rels => applyRels (process_schema schema_text) cypher_text rels

/-! ## Shape of a single-label lookup

A successful single-label lookup only ever writes the two verdict keys:
it marks the relationship correct, needing a flip, or unmatched. -/

theorem partialBranch_shape {r : Rel} {key : Str × Option Str}
    {fwd rev : Nat × Option Nat} {schema : Schema} {r' : Rel}
    (h : partialBranch r key fwd rev schema = .ok r') :
    r' = setCorrect r ∨ r' = setFlip r ∨ r' = setNoMatch r := by
  unfold partialBranch at h
  split at h
  · exact absurd h (by simp)
  · injection h with h; exact Or.inl h.symm
  · split at h
    · exact absurd h (by simp)
    · injection h with h; exact Or.inr (Or.inl h.symm)
    · injection h with h; exact Or.inr (Or.inr h.symm)

theorem find_complete_shape {r : Rel} {schema : Schema} {r' : Rel}
    (h : find_complete_tup_in_schema r schema = .ok r') :
    r' = setCorrect r ∨ r' = setFlip r ∨ r' = setNoMatch r := by
  unfold find_complete_tup_in_schema find_complete_core at h
  split at h
  · injection h with h; exact Or.inl h.symm
  · split at h
    · injection h with h; exact Or.inr (Or.inl h.symm)
    · injection h with h; exact Or.inr (Or.inr h.symm)

theorem find_partial_shape {r : Rel} {schema : Schema} {r' : Rel}
    (h : find_partial_tup_in_schema r schema = .ok r') :
    r' = setCorrect r ∨ r' = setFlip r ∨ r' = setNoMatch r := by
  unfold find_partial_tup_in_schema find_partial_core at h
  split at h
  · exact partialBranch_shape h
  · split at h
    · exact partialBranch_shape h
    · split at h
      · exact partialBranch_shape h
      · split at h
        · exact partialBranch_shape h
        · split at h
          · exact partialBranch_shape h
          · split at h
            · split at h
              · exact absurd h (by simp)
              · injection h with h; exact Or.inl h.symm
              · injection h with h; exact Or.inr (Or.inr h.symm)
            · injection h with h; exact Or.inl h.symm

theorem find_single_shape {r : Rel} {schema : Schema} {r' : Rel}
    (h : find_single_label_relationship_in_schema r schema = .ok r') :
    r' = setCorrect r ∨ r' = setFlip r ∨ r' = setNoMatch r := by
  unfold find_single_label_relationship_in_schema at h
  split at h
  · injection h with h; exact Or.inl h.symm
  · split at h
    · exact find_complete_shape h
    · exact find_partial_shape h

/-! ## Generic lemmas about the orchestrator loop -/

theorem applyRels_unmatched {schema : Schema} {r r' : Rel}
    (hfind : find_relationship_in_schema r schema = .ok r')
    (hsm : r'.schema_match = some false) :
    ∀ (rels : List Rel) (text out : Str),
      applyRels schema text rels = .ok out → r ∈ rels → out = [] := by
  intro rels
  induction rels with
  | nil => intro text out _ hmem; simp at hmem
  | cons a rest ih =>
    intro text out happ hmem
    simp only [applyRels] at happ
    cases hfa : find_relationship_in_schema a schema with
    | error e => rw [hfa] at happ; simp at happ
    | ok a1 =>
      rw [hfa] at happ
      simp only [] at happ
      by_cases hb : a1.schema_match == some false
      · rw [if_pos hb] at happ
        injection happ with h
        exact h.symm
      · rw [if_neg hb] at happ
        rcases List.mem_cons.mp hmem with heq | hmem'
        · subst heq
          have h1 : (Except.ok r' : Except PyError Rel) = .ok a1 := hfind.symm.trans hfa
          injection h1 with h1
          rw [← h1, hsm] at hb
          simp at hb
        · cases hsw : (if a1.is_correct == some false then switch_direction text a1
              else .ok text) with
          | error e => rw [hsw] at happ; simp at happ
          | ok text1 =>
            rw [hsw] at happ
            exact ih text1 out happ hmem'

/-- C1: if any detected relationship occurrence receives the verdict
`matched = false` (no schema counterpart under any candidate label in
either orientation), then a normally returning call yields the empty
string, regardless of the other occurrences. -/
theorem c1_unmatched_yields_empty (cypher_text schema_text out : Str)
    (rels : List Rel) (r r' : Rel)
    (hfix : fix_cypher_relationship_directions cypher_text schema_text = .ok out)
    (hdet : detect_relationships cypher_text (process_schema schema_text) = .ok rels)
    (hmem : r ∈ rels)
    (hfind : find_relationship_in_schema r (process_schema schema_text) = .ok r')
    (hsm : r'.schema_match = some false) :
    out = [] := by
  unfold fix_cypher_relationship_directions at hfix
  rw [hdet] at hfix
  exact applyRels_unmatched hfind hsm rels cypher_text out hfix hmem

def c1text : Str := "(a:A)-[:R]->(b:B) (c:C)-[:S]->(d:D)".toList

def c1schema : Str := "(A,R,B)".toList

def c1rels : List Rel :=
  (detect_relationships c1text (process_schema c1schema)).toOption.getD []

def c1rel : Rel := c1rels.getD 1 default

def c1rel' : Rel :=
  (find_relationship_in_schema c1rel (process_schema c1schema)).toOption.getD default

def c1out : Str :=
  (fix_cypher_relationship_directions c1text c1schema).toOption.getD ['x']

/-- Witness for C1 at a concrete input: a query whose second occurrence
has no schema counterpart is rejected as a whole. -/
theorem c1_witness :
    fix_cypher_relationship_directions c1text c1schema = .ok [] := by
  have h0 : fix_cypher_relationship_directions c1text c1schema = .ok c1out := by decide
  have h1 : c1out = [] :=
    c1_unmatched_yields_empty c1text c1schema c1out c1rels c1rel c1rel'
      h0 (by decide) (by decide) (by decide) (by decide)
  rw [h0, h1]

/-- C2: the doctest example — the reversed `WORKS_AT` pattern inside the
list comprehension is flipped to match the schema. -/
theorem c2_doctest_example :
    fix_cypher_relationship_directions
      "MATCH (p:Person) RETURN p, [(p)<-[:WORKS_AT]-(o:Organization) | o.name] AS op".toList
      "(Person, KNOWS, Person), (Person, WORKS_AT, Organization)".toList =
    .ok "MATCH (p:Person) RETURN p, [(p)-[:WORKS_AT]->(o:Organization) | o.name] AS op".toList := by
  decide

/-- C9: when the scanner detects no relationship occurrence the input
text is returned unchanged and no error is raised. -/
theorem c9_no_occurrences_identity (cypher_text schema_text : Str)
    (h : detect_relationships cypher_text (process_schema schema_text) = .ok []) :
    fix_cypher_relationship_directions cypher_text schema_text = .ok cypher_text := by
  unfold fix_cypher_relationship_directions
  rw [h]
  rfl

def c9text : Str := "(a)-[x]-".toList

/-- Witness for C9: a text containing only an unparsable relationship-like
fragment has zero occurrences and is returned unchanged. -/
theorem c9_witness :
    detect_relationships c9text (process_schema "(A,R,B)".toList) = .ok [] ∧
    fix_cypher_relationship_directions c9text "(A,R,B)".toList = .ok c9text :=
  ⟨by decide, c9_no_occurrences_identity c9text "(A,R,B)".toList (by decide)⟩

/-! ## C10: the variable-to-label fallback map -/

theorem dictGet_insertPy (m : List (Str × Str)) (kv : Str × Str) (k d : Str) :
    dictGet (insertPy m kv) k d = if kv.1 == k then kv.2 else dictGet m k d := by
  unfold insertPy dictGet
  by_cases hmem : m.any (fun e => e.1 == kv.1)
  · rw [if_pos hmem, List.find?_map]
    have hkey : ((fun x : Str × Str => x.1 == k) ∘
        (fun e : Str × Str => if e.1 == kv.1 then (e.1, kv.2) else e)) =
        (fun e : Str × Str => e.1 == k) := by
      funext e
      simp only [Function.comp_apply]
      by_cases h : (e.1 == kv.1) = true
      · rw [if_pos h]
      · rw [if_neg h]
    rw [hkey]
    cases hfind : m.find? (fun e => e.1 == k) with
    | none =>
      by_cases hk : kv.1 == k
      · exfalso
        rcases List.any_eq_true.mp hmem with ⟨e, hem, hek⟩
        have h1 : e.1 = kv.1 := eq_of_beq hek
        have h2 : kv.1 = k := eq_of_beq hk
        exact (List.find?_eq_none.mp hfind e hem) (by rw [h1, h2]; exact beq_self_eq_true k)
      · simp [hk]
    | some e =>
      have hek : (e.1 == k) = true := @List.find?_some _ (fun x : Str × Str => x.1 == k) _ _ hfind
      by_cases hk : kv.1 == k
      · have hekv : (e.1 == kv.1) = true := by
          have h1 : e.1 = k := eq_of_beq hek
          have h2 : kv.1 = k := eq_of_beq hk
          rw [h1, h2]; exact beq_self_eq_true k
        rw [if_pos hk, Option.map_some', if_pos hekv]
      · have hne : ¬ (e.1 == kv.1) = true := by
          intro hcon
          have h1 : e.1 = kv.1 := eq_of_beq hcon
          have h2 : e.1 = k := eq_of_beq hek
          rw [← h1, h2] at hk
          exact hk (beq_self_eq_true k)
        rw [if_neg hk, Option.map_some', if_neg hne]
  · rw [if_neg hmem, List.find?_append]
    cases hfind : m.find? (fun e => e.1 == k) with
    | none =>
      by_cases hk : kv.1 == k <;> simp [List.find?, hk]
    | some e =>
      have hek : (e.1 == k) = true := @List.find?_some _ (fun x : Str × Str => x.1 == k) _ _ hfind
      by_cases hk : kv.1 == k
      · exfalso
        have h1 : e.1 = k := eq_of_beq hek
        have h2 : kv.1 = k := eq_of_beq hk
        exact hmem (List.any_eq_true.mpr
          ⟨e, List.mem_of_find?_eq_some hfind, by rw [h1, h2]; exact beq_self_eq_true k⟩)
      · rw [if_neg hk, Option.or_some]

theorem dictGet_foldl (entries m0 : List (Str × Str)) (k d : Str) :
    dictGet (entries.foldl insertPy m0) k d =
      match entries.reverse.find? (fun e => e.1 == k) with
      | some e => e.2
      | none => dictGet m0 k d := by
  induction entries generalizing m0 with
  | nil => rfl
  | cons e t ih =>
    rw [List.foldl_cons, ih (insertPy m0 e), List.reverse_cons, List.find?_append]
    cases hf : t.reverse.find? (fun x => x.1 == k) with
    | some x => rw [Option.or_some]
    | none =>
      rw [dictGet_insertPy]
      show _ = (match List.find? (fun e => e.1 == k) [e] with
        | some e => e.2
        | none => dictGet m0 k d)
      cases he : (e.1 == k) with
      | true => simp [List.find?, he]
      | false => simp [List.find?, he]

/-- The declared claim about the fallback, stated independently: the value
is the one of the last labelled declaration, in text order, carrying the
variable name (empty string when there is none). -/
def lastLabelOf (cypher_text : Str) (v : Str) : Str :=
  match (labeledNodeEntries cypher_text).reverse.find? (fun e => e.1 == v) with
  | some e => e.2
  | none => []

/-- C10: when a node has no inline label, its primary label is looked up
in a map built over the whole text from variable names to first labels in
which the last labelled declaration wins; the empty variable name is an
ordinary key. -/
theorem c10_label_fallback_last_wins (r : Rel) (cypher_text : Str)
    (h : r.m.node1_labels = []) :
    (detect_node_labels r cypher_text).node1.label1 =
      lastLabelOf cypher_text r.m.node1_var_name := by
  unfold detect_node_labels
  rw [h]
  show dictGet (node_label_map cypher_text) r.m.node1_var_name [] =
    lastLabelOf cypher_text r.m.node1_var_name
  rw [node_label_map, dictGet_foldl]
  unfold lastLabelOf
  cases hf : (labeledNodeEntries cypher_text).reverse.find?
      (fun e => e.1 == r.m.node1_var_name) with
  | some x => rfl
  | none => rfl

def c10text : Str := "MATCH (:A), (:B), ()-[:R]->(c:C)".toList

def c10rel : Rel :=
  ((detect_relationships c10text (process_schema "(B,R,C)".toList)).toOption.getD []).headD
    default

/-- Witness for C10: the anonymous unlabeled node `()` inherits the first
label of the last labelled anonymous node (`(:B)`), via the theorem
applied at the concrete occurrence. -/
theorem c10_witness :
    (detect_node_labels c10rel c10text).node1.label1 = "B".toList ∧
    c10rel.m.node1_var_name = [] := by
  constructor
  · rw [c10_label_fallback_last_wins c10rel c10text (by decide)]
    decide
  · decide

/-! ## C7: negated relationship types -/

/-- The corrected behaviour at the heart of C7: when the candidate list
produced for a negated occurrence is empty (every schema type equals the
excluded type), the lookup loop never runs, so no verdict is recorded at
all. -/
theorem c7_amended_empty_candidates (r : Rel) (schema : Schema)
    (h : r.multi_labels = []) (h2 : r.is_correct = none) (h3 : r.schema_match = none) :
    find_relationship_in_schema r schema = .ok r ∧
    ∀ text : Str, applyRels schema text [r] = .ok text := by
  have hfind : find_relationship_in_schema r schema = .ok r := by
    unfold find_relationship_in_schema
    rw [h]
    rfl
  refine ⟨hfind, fun text => ?_⟩
  simp only [applyRels]
  rw [hfind]
  simp only [h3, h2]
  rfl

def c7text : Str := "(a:A)-[:!R]->(b:B)".toList

def c7schemaText : Str := "(A,R,B)".toList

def c7rel : Rel :=
  ((detect_relationships c7text (process_schema c7schemaText)).toOption.getD []).headD
    default

/-- Counterexample to C7 as stated: for a negated occurrence whose
excluded type is the only schema type, the claim demands `matched=false`
and hence an empty-string result, but the code records no verdict and
returns the text unchanged. -/
theorem c7_counterexample :
    fix_cypher_relationship_directions c7text c7schemaText = .ok c7text ∧
    c7rel.is_negated_label = true ∧
    c7rel.multi_labels = [] ∧
    c7text ≠ ([] : Str) := by decide

/-- Witness for the amended C7 at the concrete negated occurrence. -/
theorem c7_witness :
    find_relationship_in_schema c7rel (process_schema c7schemaText) = .ok c7rel ∧
    applyRels (process_schema c7schemaText) c7text [c7rel] = .ok c7text := by
  have h := c7_amended_empty_candidates c7rel (process_schema c7schemaText)
    (by decide) (by decide) (by decide)
  exact ⟨h.1, h.2 c7text⟩

/-! ## C5: unfixable occurrences -/

/-- The amended C5: an unfixable occurrence (undirected, equal node
labels, or variable length) gets the positive verdict
`is_correct = True, schema_match = True` whenever any candidate label
exists; with an empty candidate list no verdict is recorded at all (the
record is returned untouched, both fields still absent); the lookup is
schema independent (no schema lookup is performed); and processing the
occurrence never alters the text.  What fails in C5 as stated is only
the span claim: the span can still be rewritten by a different
occurrence lying inside it. -/
theorem c5_amended_unfixable_verdict (r : Rel)
    (h1 : is_unfixable r = true) (h2 : r.is_correct = none) (h3 : r.schema_match = none) :
    (∀ s1 s2 : Schema,
      find_relationship_in_schema r s1 = find_relationship_in_schema r s2) ∧
    (∀ s : Schema, r.multi_labels ≠ [] →
      (find_relationship_in_schema r s).map
        (fun t => (t.is_correct, t.schema_match)) = .ok (some true, some true)) ∧
    (∀ s : Schema, r.multi_labels = [] →
      find_relationship_in_schema r s = .ok r ∧
      (find_relationship_in_schema r s).map
        (fun t => (t.is_correct, t.schema_match)) = .ok (none, none)) ∧
    (∀ (s : Schema) (text : Str), applyRels s text [r] = .ok text) := by
  have hfind : ∀ s : Schema, find_relationship_in_schema r s =
      match r.multi_labels with
      | [] => .ok r
      | l :: _ => .ok (setCorrect (setTupFor r l)) := by
    intro s
    unfold find_relationship_in_schema
    cases hml : r.multi_labels with
    | nil => rfl
    | cons l ls =>
      rw [find_rel_go]
      have hu : is_unfixable (setTupFor r l) = true := h1
      unfold find_single_label_relationship_in_schema
      rw [if_pos hu]
      rfl
  refine ⟨fun s1 s2 => (hfind s1).trans (hfind s2).symm, ?_, ?_, ?_⟩
  · intro s hne
    rw [hfind s]
    cases hml : r.multi_labels with
    | nil => exact absurd hml hne
    | cons l ls => rfl
  · intro s hml
    rw [hfind s, hml]
    refine ⟨rfl, ?_⟩
    show Except.ok (r.is_correct, r.schema_match) = .ok (none, none)
    rw [h2, h3]
  · intro s text
    simp only [applyRels]
    rw [hfind s]
    cases hml : r.multi_labels with
    | nil => simp only [h3, h2]; rfl
    | cons l ls => rfl

def c5text : Str := "(c \x7b(a:P)-[:R]->(b:Q)\x7d)-[:S]-(d)".toList

def c5schemaText : Str := "(Q,R,P)".toList

def c5out : Str := "(c \x7b(a:P)<-[:R]-(b:Q)\x7d)-[:S]-(d)".toList

def c5rel0 : Rel :=
  ((detect_relationships c5text (process_schema c5schemaText)).toOption.getD []).headD
    default

/-- Counterexample to C5 as stated: the first detected occurrence is
undirected (unfixable) and its span is the whole text, yet the call
rewrites an inner occurrence lying inside that span, so the unfixable
occurrence's span IS altered. -/
theorem c5_counterexample :
    is_unfixable c5rel0 = true ∧
    c5rel0.m.whole = c5text ∧
    fix_cypher_relationship_directions c5text c5schemaText = .ok c5out ∧
    c5out ≠ c5text ∧
    c5out ≠ ([] : Str) := by decide

def c5wtext : Str := "(a:A)-[:R]-(b:B)".toList

def c5wrel : Rel :=
  ((detect_relationships c5wtext (process_schema "(A,R,B)".toList)).toOption.getD []).headD
    default

def c5etext : Str := "(a:A)-[:!R]-(b:B)".toList

def c5erel : Rel :=
  ((detect_relationships c5etext (process_schema "(A,R,B)".toList)).toOption.getD []).headD
    default

/-- Witness for the amended C5 at two concrete unfixable occurrences: an
undirected one with one candidate label (positive verdict, schema
independence, text unaltered) and an undirected negated one with an
empty candidate list (no verdict recorded). -/
theorem c5_witness :
    find_relationship_in_schema c5wrel (process_schema "(A,R,B)".toList) =
      find_relationship_in_schema c5wrel (process_schema "(X,Y,Z)".toList) ∧
    (find_relationship_in_schema c5wrel (process_schema "(A,R,B)".toList)).map
      (fun t => (t.is_correct, t.schema_match)) = .ok (some true, some true) ∧
    applyRels (process_schema "(A,R,B)".toList) c5wtext [c5wrel] = .ok c5wtext ∧
    (find_relationship_in_schema c5erel (process_schema "(A,R,B)".toList)).map
      (fun t => (t.is_correct, t.schema_match)) = .ok (none, none) := by
  have h := c5_amended_unfixable_verdict c5wrel (by decide) (by decide) (by decide)
  have he := c5_amended_unfixable_verdict c5erel (by decide) (by decide) (by decide)
  exact ⟨h.1 (process_schema "(A,R,B)".toList) (process_schema "(X,Y,Z)".toList),
    h.2.1 (process_schema "(A,R,B)".toList) (by decide),
    h.2.2.2 (process_schema "(A,R,B)".toList) c5wtext,
    (he.2.2.1 (process_schema "(A,R,B)".toList) (by decide)).2⟩


/-! ## C4: candidate-label scanning order -/

def isOkE {A : Type} : Except PyError A → Bool
  | .ok _ => true
  | .error _ => false

theorem find_rel_go_cons_ok {schema : Schema} {r : Rel} {l : Str} {ls : List Str}
    {r2 : Rel}
    (h : find_single_label_relationship_in_schema (setTupFor r l) schema = .ok r2) :
    find_rel_go schema r (l :: ls) =
      if r2.is_correct.getD false then .ok r2 else find_rel_go schema r2 ls := by
  rw [find_rel_go, h]

theorem find_rel_go_first_correct (schema : Schema) :
    ∀ (ls1 : List Str) (r : Rel) (l : Str) (ls2 : List Str),
    r.is_correct ≠ some true →
    (∀ l' ∈ ls1, ∀ x y : Option Bool, x ≠ some true →
      isOkE (find_single_label_relationship_in_schema
        (setTupFor { r with is_correct := x, schema_match := y } l') schema) = true ∧
      (find_single_label_relationship_in_schema
        (setTupFor { r with is_correct := x, schema_match := y } l') schema).map
          Rel.is_correct ≠ .ok (some true)) →
    (∀ x y : Option Bool,
      (find_single_label_relationship_in_schema
        (setTupFor { r with is_correct := x, schema_match := y } l) schema).map
          (fun t => (t.is_correct, t.schema_match)) = .ok (some true, some true)) →
    (find_rel_go schema r (ls1 ++ l :: ls2)).map
      (fun t => (t.is_correct, t.schema_match)) = .ok (some true, some true) := by
  intro ls1
  induction ls1 with
  | nil =>
    intro r l ls2 _ _ hl
    have hl0 := hl r.is_correct r.schema_match
    cases hfs : find_single_label_relationship_in_schema (setTupFor r l) schema with
    | error e =>
      have hfs2 : find_single_label_relationship_in_schema
          (setTupFor { r with is_correct := r.is_correct, schema_match := r.schema_match } l)
          schema = .error e := hfs
      rw [hfs2] at hl0
      exact absurd hl0 (by simp [Except.map])
    | ok r2 =>
      have hfs2 : find_single_label_relationship_in_schema
          (setTupFor { r with is_correct := r.is_correct, schema_match := r.schema_match } l)
          schema = .ok r2 := hfs
      rw [hfs2] at hl0
      have hpair : (r2.is_correct, r2.schema_match) = (some true, some true) := by
        have : (Except.ok (r2.is_correct, r2.schema_match) :
            Except PyError (Option Bool × Option Bool)) = .ok (some true, some true) := hl0
        injection this
      have hic : r2.is_correct = some true := congrArg Prod.fst hpair
      rw [List.nil_append, find_rel_go_cons_ok hfs, hic]
      simp only [Option.getD, if_true]
      show Except.ok (r2.is_correct, r2.schema_match) = .ok (some true, some true)
      rw [hpair]
  | cons a ls1x ih =>
    intro r l ls2 hic hpre hl
    have hp0 := hpre a (List.mem_cons_self a ls1x) r.is_correct r.schema_match hic
    cases hfs : find_single_label_relationship_in_schema (setTupFor r a) schema with
    | error e =>
      have hfs2 : find_single_label_relationship_in_schema
          (setTupFor { r with is_correct := r.is_correct, schema_match := r.schema_match } a)
          schema = .error e := hfs
      rw [hfs2] at hp0
      exact absurd hp0.1 (by simp [isOkE])
    | ok r2 =>
      have hfs2 : find_single_label_relationship_in_schema
          (setTupFor { r with is_correct := r.is_correct, schema_match := r.schema_match } a)
          schema = .ok r2 := hfs
      have hne : r2.is_correct ≠ some true := by
        intro hcon
        apply hp0.2
        rw [hfs2, Except.map]
        rw [hcon]
      have hgd : r2.is_correct.getD false = false := by
        cases hic2 : r2.is_correct with
        | none => rfl
        | some b =>
          cases b with
          | true => exact absurd hic2 hne
          | false => rfl
      rw [List.cons_append, find_rel_go_cons_ok hfs, hgd]
      simp only [Bool.false_eq_true, if_false]
      have hfs3 : find_single_label_relationship_in_schema
          (setTupFor { r with is_correct := r.is_correct, schema_match := r.schema_match } a)
          schema = .ok r2 := hfs
      rcases find_single_shape hfs3 with hsh | hsh | hsh <;> subst hsh
      · exact absurd rfl hne
      · exact ih _ l ls2 hne
          (fun lx hm x y hxt => hpre lx (List.mem_cons_of_mem a hm) x y hxt)
          (fun x y => hl x y)
      · exact ih _ l ls2 hne
          (fun lx hm x y hxt => hpre lx (List.mem_cons_of_mem a hm) x y hxt)
          (fun x y => hl x y)

theorem find_rel_go_all_miss (schema : Schema) :
    ∀ (ls : List Str), ls ≠ [] → ∀ (r : Rel),
    (∀ l ∈ ls, ∀ x y : Option Bool,
      (find_single_label_relationship_in_schema
        (setTupFor { r with is_correct := x, schema_match := y } l) schema).map
          Rel.schema_match = .ok (some false)) →
    (find_rel_go schema r ls).map Rel.schema_match = .ok (some false) := by
  intro ls
  induction ls with
  | nil => intro h; exact absurd rfl h
  | cons a lsx ih =>
    intro _ r hall
    have ha0 := hall a (List.mem_cons_self a lsx) r.is_correct r.schema_match
    cases hfs : find_single_label_relationship_in_schema (setTupFor r a) schema with
    | error e =>
      have hfs2 : find_single_label_relationship_in_schema
          (setTupFor { r with is_correct := r.is_correct, schema_match := r.schema_match } a)
          schema = .error e := hfs
      rw [hfs2] at ha0
      exact absurd ha0 (by simp [Except.map])
    | ok r2 =>
      have hfs2 : find_single_label_relationship_in_schema
          (setTupFor { r with is_correct := r.is_correct, schema_match := r.schema_match } a)
          schema = .ok r2 := hfs
      rw [hfs2] at ha0
      have hsm : r2.schema_match = some false := by
        have : (Except.ok r2.schema_match : Except PyError (Option Bool)) = .ok (some false) := ha0
        injection this
      rw [find_rel_go_cons_ok hfs]
      by_cases hb : r2.is_correct.getD false = true
      · rw [if_pos hb]
        show Except.ok r2.schema_match = .ok (some false)
        rw [hsm]
      · rw [if_neg hb]
        cases lsx with
        | nil =>
          rw [find_rel_go]
          show Except.ok r2.schema_match = .ok (some false)
          rw [hsm]
        | cons b t =>
          have hfs3 : find_single_label_relationship_in_schema
              (setTupFor { r with is_correct := r.is_correct, schema_match := r.schema_match } a)
              schema = .ok r2 := hfs
          rcases find_single_shape hfs3 with hsh | hsh | hsh <;> subst hsh <;>
            exact ih (by simp) _
              (fun lx hm x y => hall lx (List.mem_cons_of_mem a hm) x y)

/-- C4 corrected: the scan over candidate labels stops at the first label
whose lookup marks the direction correct — labels after it are not
examined; a needs-flip or no-match lookup does NOT stop the scan (the
earlier labels' lookups may leave the direction flag untouched or set it
to needs-flip, never to correct, for every incoming state the scan can
reach, i.e. every incoming flag other than already-correct); and when
every candidate label fails to match, the final verdict is
`matched = false`. -/
theorem c4_amended_first_correct_wins :
    (∀ (schema : Schema) (r : Rel) (ls1 : List Str) (l : Str) (ls2 : List Str),
      r.multi_labels = ls1 ++ l :: ls2 →
      r.is_correct ≠ some true →
      (∀ l' ∈ ls1, ∀ x y : Option Bool, x ≠ some true →
        isOkE (find_single_label_relationship_in_schema
          (setTupFor { r with is_correct := x, schema_match := y } l') schema) = true ∧
        (find_single_label_relationship_in_schema
          (setTupFor { r with is_correct := x, schema_match := y } l') schema).map
            Rel.is_correct ≠ .ok (some true)) →
      (∀ x y : Option Bool,
        (find_single_label_relationship_in_schema
          (setTupFor { r with is_correct := x, schema_match := y } l) schema).map
            (fun t => (t.is_correct, t.schema_match)) = .ok (some true, some true)) →
      (find_relationship_in_schema r schema).map
        (fun t => (t.is_correct, t.schema_match)) = .ok (some true, some true)) ∧
    (∀ (schema : Schema) (r : Rel),
      r.multi_labels ≠ [] →
      (∀ l ∈ r.multi_labels, ∀ x y : Option Bool,
        (find_single_label_relationship_in_schema
          (setTupFor { r with is_correct := x, schema_match := y } l) schema).map
            Rel.schema_match = .ok (some false)) →
      (find_relationship_in_schema r schema).map Rel.schema_match = .ok (some false)) := by
  constructor
  · intro schema r ls1 l ls2 hml hic hpre hl
    unfold find_relationship_in_schema
    rw [hml]
    exact find_rel_go_first_correct schema ls1 r l ls2 hic hpre hl
  · intro schema r hne hall
    unfold find_relationship_in_schema
    exact find_rel_go_all_miss schema r.multi_labels hne r hall

def c4text : Str := "(a:A)-[:R|S]->(b:B)".toList

def c4schemaText : Str := "(B,R,A)".toList

def c4rel : Rel :=
  ((detect_relationships c4text (process_schema c4schemaText)).toOption.getD []).headD
    default

/-- Counterexample to C4 as stated: candidate `R` yields needs-flip, so
per the claim the occurrence's verdict would be matched/flip and the call
would return the flipped text; but the scan continues, `S` yields no
match, the recorded verdict ends `matched = false` and the call returns
the empty string. -/
theorem c4_counterexample :
    c4rel.multi_labels = ["R".toList, "S".toList] ∧
    fix_cypher_relationship_directions c4text c4schemaText = .ok [] ∧
    ([] : Str) ≠ "(a:A)<-[:R|S]-(b:B)".toList := by decide

def c4wtext : Str := "(a:A)-[:R|S]->(b:B)".toList

def c4wrel : Rel :=
  ((detect_relationships c4wtext (process_schema "(A,S,B)".toList)).toOption.getD []).headD
    default

def c4mtext : Str := "(a:A)-[:R]->(b:B)".toList

def c4mrel : Rel :=
  ((detect_relationships c4mtext (process_schema "(X,Y,Z)".toList)).toOption.getD []).headD
    default

/-- Witness for the amended C4 at a concrete occurrence realising the
no-match-then-correct scenario: candidate `R` yields no match (it leaves
the direction flag untouched), the scan continues, and candidate `S` is
the first correct one and wins; plus a one-candidate occurrence with no
match ending `matched = false`. -/
theorem c4_witness :
    (find_relationship_in_schema c4wrel (process_schema "(A,S,B)".toList)).map
      (fun t => (t.is_correct, t.schema_match)) = .ok (some true, some true) ∧
    (find_relationship_in_schema c4mrel (process_schema "(X,Y,Z)".toList)).map
      Rel.schema_match = .ok (some false) := by
  constructor
  · exact c4_amended_first_correct_wins.1 (process_schema "(A,S,B)".toList) c4wrel
      ["R".toList] "S".toList [] (by decide) (by decide) (by decide) (by decide)
  · exact c4_amended_first_correct_wins.2 (process_schema "(X,Y,Z)".toList) c4mrel
      (by decide) (by decide)


/-! ## Scanner invariants -/

theorem relFromNode2_arrows {s : Str} {i : Nat} {v1 l1 : Str} {la : Option Str}
    {rv rl hops : Str} {ra : Option Str} {q4 : Nat} {m : RelMatch}
    (h : relFromNode2 s i v1 l1 la rv rl hops ra q4 = some m) :
    m.rel_left_arrow = la ∧ m.rel_right_arrow = ra := by
  unfold relFromNode2 at h
  rcases Option.bind_eq_some.mp h with ⟨x2, hx2, h2⟩
  rcases List.findSome?_eq_some_iff.mp h2 with ⟨l1b, p3, l2b, hdec, h3, hprev⟩
  split at h3
  · injection h3 with h3
    rw [← h3]
    exact ⟨rfl, rfl⟩
  · exact absurd h3 (by simp)

theorem relFromProps_arrows {s : Str} {i : Nat} {v1 l1 : Str} {la : Option Str}
    {rv rl : Str} {p2 : Nat} {m : RelMatch}
    (h : relFromProps s i v1 l1 la rv rl p2 = some m) :
    m.rel_left_arrow = la ∧
    (m.rel_right_arrow = none ∨ m.rel_right_arrow = some ['>']) := by
  unfold relFromProps at h
  split at h
  · split at h
    · have := relFromNode2_arrows h
      exact ⟨this.1, Or.inr this.2⟩
    · have := relFromNode2_arrows h
      exact ⟨this.1, Or.inl this.2⟩
  · exact absurd h (by simp)

theorem relFromDash_arrows {s : Str} {i : Nat} {v1 l1 : Str} {la : Option Str}
    {q1 : Nat} {m : RelMatch}
    (h : relFromDash s i v1 l1 la q1 = some m) :
    m.rel_left_arrow = la ∧
    (m.rel_right_arrow = none ∨ m.rel_right_arrow = some ['>']) := by
  unfold relFromDash at h
  split at h
  · rcases List.findSome?_eq_some_iff.mp h with ⟨l1b, p2, l2b, hdec, h3, hprev⟩
    exact relFromProps_arrows h3
  · exact absurd h (by simp)

theorem relFromArrow_arrows {s : Str} {i : Nat} {v1 l1 : Str} {q0 : Nat}
    {m : RelMatch} (h : relFromArrow s i v1 l1 q0 = some m) :
    (m.rel_left_arrow = none ∨ m.rel_left_arrow = some ['<']) ∧
    (m.rel_right_arrow = none ∨ m.rel_right_arrow = some ['>']) := by
  unfold relFromArrow at h
  split at h
  · have := relFromDash_arrows h
    exact ⟨Or.inr this.1, this.2⟩
  · have := relFromDash_arrows h
    exact ⟨Or.inl this.1, this.2⟩

theorem matchRelAt_arrows {s : Str} {i : Nat} {m : RelMatch}
    (h : matchRelAt s i = some m) :
    (m.rel_left_arrow = none ∨ m.rel_left_arrow = some ['<']) ∧
    (m.rel_right_arrow = none ∨ m.rel_right_arrow = some ['>']) := by
  unfold matchRelAt at h
  rcases Option.bind_eq_some.mp h with ⟨x1, hx1, h2⟩
  rcases List.findSome?_eq_some_iff.mp h2 with ⟨l1b, p1, l2b, hdec, h3, hprev⟩
  split at h3
  · exact relFromArrow_arrows h3
  · exact absurd h3 (by simp)

theorem scanRels_arrows {s : Str} {m : RelMatch} (h : m ∈ scanRels s) :
    (m.rel_left_arrow = none ∨ m.rel_left_arrow = some ['<']) ∧
    (m.rel_right_arrow = none ∨ m.rel_right_arrow = some ['>']) := by
  unfold scanRels at h
  rcases List.mem_filterMap.mp h with ⟨i, _, hmi⟩
  exact matchRelAt_arrows hmi

/-! ## C6: no schema validation, and when hard failures are possible -/

theorem mapME_mem {A B : Type} {f : A → Except PyError B} :
    ∀ {l : List A} {bs : List B} {b : B}, mapME f l = .ok bs → b ∈ bs →
      ∃ a ∈ l, f a = .ok b := by
  intro l
  induction l with
  | nil =>
    intro bs b h hb
    unfold mapME at h
    injection h with h
    subst h
    simp at hb
  | cons a t ih =>
    intro bs b h hb
    unfold mapME at h
    split at h
    · exact absurd h (by simp)
    · split at h
      · exact absurd h (by simp)
      · injection h with h
        subst h
        rcases List.mem_cons.mp hb with hb | hb
        · subst hb
          exact ⟨a, List.mem_cons_self a t, by assumption⟩
        · rcases ih (by assumption) hb with ⟨a2, ha2, hfa2⟩
          exact ⟨a2, List.mem_cons_of_mem a ha2, hfa2⟩

theorem mapME_ok {A B : Type} {f : A → Except PyError B} :
    ∀ {l : List A}, (∀ a ∈ l, ∃ b, f a = .ok b) → ∃ bs, mapME f l = .ok bs := by
  intro l
  induction l with
  | nil => intro _; exact ⟨[], rfl⟩
  | cons a t ih =>
    intro h
    obtain ⟨b, hb⟩ := h a (List.mem_cons_self a t)
    obtain ⟨bs, hbs⟩ := ih (fun x hx => h x (List.mem_cons_of_mem a hx))
    refine ⟨b :: bs, ?_⟩
    unfold mapME
    rw [hb, hbs]

theorem buildRel_fields {c : Str} {schema : Schema} {m : RelMatch} {r : Rel}
    (h : buildRel c schema m = .ok r) :
    r.is_correct = none ∧ r.schema_match = none ∧
    r.direction = pyOr m.rel_left_arrow m.rel_right_arrow := by
  unfold buildRel at h
  split at h
  · unfold transform_negated_to_multi_label at h
    split at h
    · exact absurd h (by simp)
    · injection h with h
      rw [← h]
      exact ⟨rfl, rfl, rfl⟩
  · injection h with h
    rw [← h]
    exact ⟨rfl, rfl, rfl⟩

theorem pyOr_arrows {la ra : Option Str}
    (hla : la = none ∨ la = some ['<']) (hra : ra = none ∨ ra = some ['>']) :
    pyOr la ra = none ∨ pyOr la ra = some ['<'] ∨ pyOr la ra = some ['>'] := by
  rcases hla with h | h <;> rcases hra with h2 | h2 <;> subst h <;> subst h2 <;> decide

theorem detect_fields {c : Str} {schema : Schema} {rels : List Rel} {r : Rel}
    (hdet : detect_relationships c schema = .ok rels) (hr : r ∈ rels) :
    r.is_correct = none ∧ r.schema_match = none ∧
    (r.direction = none ∨ r.direction = some ['<'] ∨ r.direction = some ['>']) := by
  unfold detect_relationships at hdet
  rcases mapME_mem hdet hr with ⟨m, hm, hbr⟩
  have hf := buildRel_fields hbr
  have har := scanRels_arrows hm
  refine ⟨hf.1, hf.2.1, ?_⟩
  rw [hf.2.2]
  exact pyOr_arrows har.1 har.2

theorem colM_ok {schema : Schema} (h : ∀ t ∈ schema, 3 ≤ t.length) {i : Nat}
    (hi : i < 3) : ∃ l, colM i schema = .ok l := by
  induction schema with
  | nil => exact ⟨[], rfl⟩
  | cons t ts ih =>
    have ht := h t (List.mem_cons_self t ts)
    have hlt : i < t.length := lt_of_lt_of_le hi ht
    obtain ⟨l, hl⟩ := ih (fun x hx => h x (List.mem_cons_of_mem t hx))
    refine ⟨t[i] :: l, ?_⟩
    unfold colM at hl ⊢
    unfold mapME
    rw [List.getElem?_eq_getElem hlt, hl]
theorem partialCheck_ok {schema : Schema} (h : ∀ t ∈ schema, 3 ≤ t.length)
    (key : Str × Option Str) {i : Nat} {j : Option Nat} (hi : i < 3)
    (hj : j = none ∨ ∃ jj, j = some jj ∧ jj < 3) :
    ∃ b, partialCheck key i j schema = .ok b := by
  cases j with
  | none =>
    obtain ⟨ci, hci⟩ := colM_ok h hi
    rw [partialCheck, hci]
    exact ⟨_, rfl⟩
  | some jj =>
    rcases hj with hj | ⟨jj2, hjj2, hlt⟩
    · exact Option.noConfusion hj
    · injection hjj2 with h2
      subst h2
      obtain ⟨ci, hci⟩ := colM_ok h hi
      obtain ⟨cj, hcj⟩ := colM_ok h hlt
      rw [partialCheck, hci, hcj]
      exact ⟨_, rfl⟩

theorem partialBranch_ok {r : Rel} {key : Str × Option Str}
    {fwd rev : Nat × Option Nat} {schema : Schema}
    (h : ∀ t ∈ schema, 3 ≤ t.length)
    (hf1 : fwd.1 < 3) (hf2 : fwd.2 = none ∨ ∃ jj, fwd.2 = some jj ∧ jj < 3)
    (hr1 : rev.1 < 3) (hr2 : rev.2 = none ∨ ∃ jj, rev.2 = some jj ∧ jj < 3) :
    ∃ r2, partialBranch r key fwd rev schema = .ok r2 := by
  unfold partialBranch
  obtain ⟨b1, hb1⟩ := partialCheck_ok h key hf1 hf2
  rw [hb1]
  cases b1 with
  | true => exact ⟨_, rfl⟩
  | false =>
    obtain ⟨b2, hb2⟩ := partialCheck_ok h key hr1 hr2
    rw [hb2]
    cases b2 with
    | true => exact ⟨_, rfl⟩
    | false => exact ⟨_, rfl⟩

theorem find_single_ok {r : Rel} {schema : Schema}
    (h : ∀ t ∈ schema, 3 ≤ t.length) :
    ∃ r2, find_single_label_relationship_in_schema r schema = .ok r2 := by
  unfold find_single_label_relationship_in_schema
  split
  · exact ⟨_, rfl⟩
  · split
    · unfold find_complete_tup_in_schema find_complete_core
      split
      · exact ⟨_, rfl⟩
      · split
        · exact ⟨_, rfl⟩
        · exact ⟨_, rfl⟩
    · unfold find_partial_tup_in_schema find_partial_core
      split
      · exact partialBranch_ok h (by decide) (Or.inr ⟨_, rfl, by omega⟩)
          (by decide) (Or.inr ⟨_, rfl, by omega⟩)
      · split
        · exact partialBranch_ok h (by decide) (Or.inr ⟨_, rfl, by omega⟩)
            (by decide) (Or.inr ⟨_, rfl, by omega⟩)
        · split
          · exact partialBranch_ok h (by decide) (Or.inr ⟨_, rfl, by omega⟩)
              (by decide) (Or.inr ⟨_, rfl, by omega⟩)
          · split
            · exact partialBranch_ok h (by decide) (Or.inl rfl)
                (by decide) (Or.inl rfl)
            · split
              · exact partialBranch_ok h (by decide) (Or.inl rfl)
                  (by decide) (Or.inl rfl)
              · split
                · obtain ⟨b1, hb1⟩ := partialCheck_ok h _ (by omega : (1:Nat) < 3)
                    (Or.inl rfl)
                  rw [hb1]
                  cases b1 with
                  | true => exact ⟨_, rfl⟩
                  | false => exact ⟨_, rfl⟩
                · exact ⟨_, rfl⟩

theorem find_rel_go_ok {schema : Schema} (h : ∀ t ∈ schema, 3 ≤ t.length) :
    ∀ (ls : List Str) (r : Rel), ∃ r2, find_rel_go schema r ls = .ok r2 := by
  intro ls
  induction ls with
  | nil => intro r; exact ⟨r, rfl⟩
  | cons a t ih =>
    intro r
    obtain ⟨r2, hr2⟩ := @find_single_ok (setTupFor r a) _ h
    rw [find_rel_go_cons_ok hr2]
    by_cases hb : r2.is_correct.getD false = true
    · rw [if_pos hb]
      exact ⟨r2, rfl⟩
    · rw [if_neg hb]
      exact ih r2

theorem find_rel_go_dir {schema : Schema} :
    ∀ (ls : List Str) (r r2 : Rel), find_rel_go schema r ls = .ok r2 →
      r2.direction = r.direction := by
  intro ls
  induction ls with
  | nil =>
    intro r r2 h
    rw [find_rel_go] at h
    injection h with h
    rw [← h]
  | cons a t ih =>
    intro r r2 h
    cases hfs : find_single_label_relationship_in_schema (setTupFor r a) schema with
    | error e =>
      rw [find_rel_go, hfs] at h
      exact absurd h (by simp)
    | ok rx =>
      rw [find_rel_go_cons_ok hfs] at h
      have hdx : rx.direction = r.direction := by
        rcases find_single_shape hfs with h2 | h2 | h2 <;> subst h2 <;> rfl
      by_cases hb : rx.is_correct.getD false = true
      · rw [if_pos hb] at h
        injection h with h
        rw [← h]
        exact hdx
      · rw [if_neg hb] at h
        exact (ih rx r2 h).trans hdx

theorem find_single_icfalse {r : Rel} {schema : Schema} {r2 : Rel}
    (h : find_single_label_relationship_in_schema r schema = .ok r2)
    (hic : r2.is_correct = some false) :
    r.is_correct = some false ∨ is_unfixable r = false := by
  unfold find_single_label_relationship_in_schema at h
  split at h
  · injection h with h
    rw [← h] at hic
    exact absurd hic (by simp [setCorrect])
  · rename_i hcond
    have hu : is_unfixable r = false := by
      cases hval : is_unfixable r with
      | false => rfl
      | true => exact absurd hval hcond
    split at h
    · exact Or.inr hu
    · exact Or.inr hu

theorem find_rel_go_icfalse {schema : Schema} :
    ∀ (ls : List Str) (r r2 : Rel), find_rel_go schema r ls = .ok r2 →
      r2.is_correct = some false →
      r.is_correct = some false ∨ is_unfixable r = false := by
  intro ls
  induction ls with
  | nil =>
    intro r r2 h hic
    rw [find_rel_go] at h
    injection h with h
    rw [← h] at hic
    exact Or.inl hic
  | cons a t ih =>
    intro r r2 h hic
    cases hfs : find_single_label_relationship_in_schema (setTupFor r a) schema with
    | error e =>
      rw [find_rel_go, hfs] at h
      exact absurd h (by simp)
    | ok rx =>
      rw [find_rel_go_cons_ok hfs] at h
      by_cases hb : rx.is_correct.getD false = true
      · rw [if_pos hb] at h
        injection h with h
        rw [← h] at hic
        rw [hic] at hb
        exact absurd hb (by simp)
      · rw [if_neg hb] at h
        rcases ih rx r2 h hic with hx | hx
        · rcases find_single_icfalse hfs hx with hy | hy
          · exact Or.inl hy
          · exact Or.inr hy
        · rcases find_single_shape hfs with h2 | h2 | h2 <;> subst h2 <;> exact Or.inr hx

theorem switch_direction_ok {text : Str} {r : Rel}
    (h : r.direction = some ['<'] ∨ r.direction = some ['>']) :
    ∃ t2, switch_direction text r = .ok t2 := by
  unfold switch_direction
  rcases h with h | h <;> rw [h] <;> simp

theorem unfixable_false_direction {r : Rel} (h : is_unfixable r = false) :
    truthyOpt r.direction = true := by
  unfold is_unfixable at h
  cases hval : truthyOpt r.direction with
  | true => rfl
  | false => rw [hval] at h; simp at h

theorem applyRels_cons_ok {schema : Schema} {text : Str} {r : Rel}
    {rest : List Rel} {r1 : Rel}
    (h : find_relationship_in_schema r schema = .ok r1) :
    applyRels schema text (r :: rest) =
      if r1.schema_match == some false then .ok []
      else
        match (if r1.is_correct == some false then switch_direction text r1
               else .ok text) with
        | .error e => .error e
        | .ok text1 => applyRels schema text1 rest := by
  rw [applyRels, h]

theorem applyRels_ok {schema : Schema} (harity : ∀ t ∈ schema, 3 ≤ t.length) :
    ∀ (rels : List Rel) (text : Str),
    (∀ r ∈ rels, r.is_correct = none ∧
      (r.direction = none ∨ r.direction = some ['<'] ∨ r.direction = some ['>'])) →
    ∃ out, applyRels schema text rels = .ok out := by
  intro rels
  induction rels with
  | nil => intro text _; exact ⟨text, rfl⟩
  | cons r rest ih =>
    intro text hprops
    have hr := hprops r (List.mem_cons_self r rest)
    obtain ⟨r1, hr1⟩ := find_rel_go_ok harity r.multi_labels r
    have hfind : find_relationship_in_schema r schema = .ok r1 := hr1
    rw [applyRels_cons_ok hfind]
    by_cases hsm : (r1.schema_match == some false) = true
    · rw [if_pos hsm]
      exact ⟨[], rfl⟩
    · rw [if_neg hsm]
      by_cases hicf : (r1.is_correct == some false) = true
      · have hic : r1.is_correct = some false := eq_of_beq hicf
        have hdir1 : r1.direction = r.direction := find_rel_go_dir r.multi_labels r r1 hr1
        have hunfix : is_unfixable r = false := by
          rcases find_rel_go_icfalse r.multi_labels r r1 hr1 hic with hx | hx
          · rw [hr.1] at hx; exact absurd hx (by simp)
          · exact hx
        have htr := unfixable_false_direction hunfix
        have hdircase : r.direction = some ['<'] ∨ r.direction = some ['>'] := by
          rcases hr.2 with hd | hd | hd
          · rw [hd] at htr; exact absurd htr (by simp [truthyOpt])
          · exact Or.inl hd
          · exact Or.inr hd
        obtain ⟨t2, ht2⟩ := @switch_direction_ok text r1
          (by rw [hdir1]; exact hdircase)
        rw [if_pos hicf, ht2]
        exact ih t2 (fun x hx => hprops x (List.mem_cons_of_mem r hx))
      · rw [if_neg hicf]
        exact ih text (fun x hx => hprops x (List.mem_cons_of_mem r hx))

theorem buildRel_ok {c : Str} {schema : Schema} {m : RelMatch}
    (h : ∀ t ∈ schema, 3 ≤ t.length) : ∃ r, buildRel c schema m = .ok r := by
  unfold buildRel
  split
  · unfold transform_negated_to_multi_label
    obtain ⟨types, ht⟩ := @colM_ok _ h 1 (by omega)
    rw [ht]
    exact ⟨_, rfl⟩
  · exact ⟨_, rfl⟩

/-- C6 corrected: `process_schema` performs no validation at all (there is
no SchemaFormatError anywhere); a hard failure is only possible through a
later lookup indexing a missing field of a short tuple, and a schema whose
groups all parse to at least three fields can never produce one. -/
theorem c6_amended_no_validation (cypher_text schema_text : Str)
    (h : ∀ t ∈ process_schema schema_text, 3 ≤ t.length) :
    ∃ out, fix_cypher_relationship_directions cypher_text schema_text = .ok out := by
  obtain ⟨rels, hrels⟩ : ∃ rels,
      detect_relationships cypher_text (process_schema schema_text) = .ok rels := by
    unfold detect_relationships
    exact mapME_ok (fun m _ => buildRel_ok h)
  unfold fix_cypher_relationship_directions
  rw [hrels]
  exact applyRels_ok h rels cypher_text
    (fun r hr => ⟨(detect_fields hrels hr).1, (detect_fields hrels hr).2.2⟩)

def c6text : Str := "(a:A)-[:R]->(b:B)".toList

def c6schemaText : Str := "(A,R,B),(X,Y)".toList

/-- Counterexample to C6 as stated: a schema with a malformed two-field
group is accepted silently — the call completes normally instead of
failing with a SchemaFormatError (which does not exist in the code). -/
theorem c6_counterexample :
    (process_schema c6schemaText).any (fun t => decide (t.length ≠ 3)) = true ∧
    fix_cypher_relationship_directions c6text c6schemaText = .ok c6text := by decide

/-- Witness for the amended C6 at a concrete well-formed schema. -/
theorem c6_witness :
    ∃ out, fix_cypher_relationship_directions c6text "(A,R,B)".toList = .ok out :=
  c6_amended_no_validation c6text "(A,R,B)".toList (by decide)

/-! ## C8: idempotence -/

theorem applyRels_id {schema : Schema} :
    ∀ (rels : List Rel) (text : Str),
    (∀ r ∈ rels, (find_relationship_in_schema r schema).map
      (fun t => !(t.schema_match == some false) && !(t.is_correct == some false)) =
        .ok true) →
    applyRels schema text rels = .ok text := by
  intro rels
  induction rels with
  | nil => intro text _; rfl
  | cons r rest ih =>
    intro text hall
    have hr := hall r (List.mem_cons_self r rest)
    cases hfind : find_relationship_in_schema r schema with
    | error e =>
      rw [hfind] at hr
      exact absurd hr (by simp [Except.map])
    | ok r1 =>
      rw [hfind] at hr
      have hb : (!(r1.schema_match == some false) && !(r1.is_correct == some false)) = true := by
        have : (Except.ok
            (!(r1.schema_match == some false) && !(r1.is_correct == some false)) :
              Except PyError Bool) = .ok true := hr
        injection this
      have hsm : (r1.schema_match == some false) = false := by
        rcases (Bool.and_eq_true _ _).mp hb with ⟨h1, _⟩
        cases hval : (r1.schema_match == some false) with
        | false => rfl
        | true => rw [hval] at h1; exact absurd h1 (by simp)
      have hic : (r1.is_correct == some false) = false := by
        rcases (Bool.and_eq_true _ _).mp hb with ⟨_, h2⟩
        cases hval : (r1.is_correct == some false) with
        | false => rfl
        | true => rw [hval] at h2; exact absurd h2 (by simp)
      rw [applyRels_cons_ok hfind, hsm, hic]
      simp only [Bool.false_eq_true, if_false]
      exact ih text (fun x hx => hall x (List.mem_cons_of_mem r hx))

/-- C8 amended: idempotence holds in the no-edit case — when every
occurrence's verdict is matched with a correct direction, the call
returns its input unchanged, and re-running it on the returned text
trivially returns that text again.  (When an edit does occur the
re-run can differ, because a rewrite can create new occurrences inside
property bodies; see the counterexample.) -/
theorem c8_amended_fixed_point (cypher_text schema_text : Str) (rels : List Rel)
    (hdet : detect_relationships cypher_text (process_schema schema_text) = .ok rels)
    (hall : ∀ r ∈ rels,
      (find_relationship_in_schema r (process_schema schema_text)).map
        (fun t => !(t.schema_match == some false) && !(t.is_correct == some false)) =
          .ok true) :
    fix_cypher_relationship_directions cypher_text schema_text = .ok cypher_text := by
  unfold fix_cypher_relationship_directions
  rw [hdet]
  exact applyRels_id rels cypher_text hall

def c8text : Str := "(a:A \x7bp(x:X)-[:Q]-(y:Y)\x7d)<-[:R]-(b:B)".toList

def c8schemaText : Str := "(A,R,B)".toList

def c8out : Str := "(a:A \x7bp(x:X)-[:Q]->(y:Y)\x7d)-[:R]->(b:B)".toList

/-- Counterexample to C8 as stated: the first call flips the outer
occurrence, and the global text rewrite of `switch_direction` also turns
the undirected inner pattern in the property body into a directed one;
re-running the corrector on the non-empty result rejects the query. -/
theorem c8_counterexample :
    fix_cypher_relationship_directions c8text c8schemaText = .ok c8out ∧
    c8out ≠ ([] : Str) ∧
    fix_cypher_relationship_directions c8out c8schemaText = .ok [] ∧
    ([] : Str) ≠ c8out := by decide

def c8wtext : Str := "(a:A)-[:R]->(b:B)".toList

def c8wrels : List Rel :=
  (detect_relationships c8wtext (process_schema c8schemaText)).toOption.getD []

/-- Witness for the amended C8 at a concrete no-edit input. -/
theorem c8_witness :
    fix_cypher_relationship_directions c8wtext c8schemaText = .ok c8wtext :=
  c8_amended_fixed_point c8wtext c8schemaText c8wrels (by decide) (by decide)

/-! ## C3: what switch_direction does to the text

`str.replace` is a global substring replace; the lemmas below characterise
it when the pattern occurs exactly once, which is what rescues the
local-rewrite reading of the claim. -/

theorem pyReplaceF_nil {old new : Str} (hold : old ≠ []) :
    ∀ fuel : Nat, pyReplaceF old new fuel [] = [] := by
  intro fuel
  cases fuel with
  | zero => rfl
  | succ f =>
    rw [pyReplaceF]
    have hpre : ¬ (old ≠ [] ∧ old.isPrefixOf ([] : Str)) := by
      intro ⟨_, hp⟩
      cases old with
      | nil => exact hold rfl
      | cons c t => simp [List.isPrefixOf] at hp
    rw [if_neg hpre]

theorem pyReplaceF_succ (old new : Str) (f : Nat) (s : Str) :
    pyReplaceF old new (f + 1) s =
      if old ≠ [] ∧ old.isPrefixOf s then
        new ++ pyReplaceF old new f (s.drop old.length)
      else
        match s with
        | [] => []
        | c :: t => c :: pyReplaceF old new f t := rfl

theorem pyReplaceF_fuel {old new : Str} (hold : old ≠ []) :
    ∀ (f1 : Nat) (s : Str) (f2 : Nat), s.length ≤ f1 → s.length ≤ f2 →
    pyReplaceF old new f1 s = pyReplaceF old new f2 s := by
  intro f1
  induction f1 with
  | zero =>
    intro s f2 h1 _
    have hs : s = [] := List.length_eq_zero.mp (Nat.le_zero.mp h1)
    subst hs
    simp only [pyReplaceF_nil hold]
  | succ f ih =>
    intro s f2 h1 h2
    cases s with
    | nil => rw [pyReplaceF_nil hold, pyReplaceF_nil hold]
    | cons c t =>
      have hlen : 0 < (c :: t).length := by simp
      cases f2 with
      | zero => omega
      | succ f2x =>
        rw [pyReplaceF, pyReplaceF]
        by_cases hp : old ≠ [] ∧ old.isPrefixOf (c :: t)
        · rw [if_pos hp, if_pos hp]
          congr 1
          have holdlen : 0 < old.length := List.length_pos.mpr hold
          have hdlen : ((c :: t).drop old.length).length = (c :: t).length - old.length := by
            simp [List.length_drop]
          exact ih _ f2x (by omega) (by omega)
        · rw [if_neg hp, if_neg hp]
          simp only [List.cons.injEq, true_and]
          exact ih t f2x (by simp at h1; omega) (by simp at h2; omega)

theorem pyReplace_no_occur {s old new : Str} (hold : old ≠ [])
    (hno : ∀ i < s.length, ¬ old.isPrefixOf (s.drop i)) :
    pyReplace s old new = s := by
  unfold pyReplace
  have hgen : ∀ (fuel : Nat) (t : Str), t.length ≤ fuel →
      (∀ i < t.length, ¬ old.isPrefixOf (t.drop i)) → pyReplaceF old new fuel t = t := by
    intro fuel
    induction fuel with
    | zero =>
      intro t ht _
      have : t = [] := List.length_eq_zero.mp (Nat.le_zero.mp ht)
      subst this
      rfl
    | succ f ih =>
      intro t ht hnot
      cases t with
      | nil => rw [pyReplaceF_nil hold]
      | cons c tt =>
        rw [pyReplaceF]
        have hpre : ¬ (old ≠ [] ∧ old.isPrefixOf (c :: tt)) := by
          intro ⟨_, hp⟩
          exact hnot 0 (by simp) (by simpa using hp)
        rw [if_neg hpre]
        simp only [List.cons.injEq, true_and]
        apply ih tt (by simp at ht; omega)
        intro i hi
        have := hnot (i + 1) (by simp; omega)
        simpa using this
  exact hgen s.length s (le_refl _) hno

theorem pyReplace_first {pre rest old new : Str} (hold : old ≠ [])
    (hno : ∀ i < pre.length, ¬ old.isPrefixOf ((pre ++ old ++ rest).drop i)) :
    pyReplace (pre ++ old ++ rest) old new = pre ++ new ++ pyReplace rest old new := by
  unfold pyReplace
  have holdlen : 0 < old.length := List.length_pos.mpr hold
  have hgen : ∀ (p : Str) (fuel : Nat), (p ++ old ++ rest).length ≤ fuel →
      (∀ i < p.length, ¬ old.isPrefixOf ((p ++ old ++ rest).drop i)) →
      pyReplaceF old new fuel (p ++ old ++ rest) =
        p ++ new ++ pyReplaceF old new rest.length rest := by
    intro p
    induction p with
    | nil =>
      intro fuel hflen hnop
      cases fuel with
      | zero =>
        exfalso
        have hpos : 0 < ([] ++ old ++ rest : Str).length := by
          simp
          omega
        omega
      | succ f =>
        rw [pyReplaceF_succ]
        have hp : old ≠ [] ∧ old.isPrefixOf ([] ++ old ++ rest) := by
          constructor
          · exact hold
          · simp only [List.nil_append]
            exact List.isPrefixOf_iff_prefix.mpr (List.prefix_append old rest)
        rw [if_pos hp]
        simp only [List.nil_append]
        congr 1
        rw [List.drop_left]
        apply pyReplaceF_fuel hold
        · simp at hflen
          omega
        · exact le_refl _
    | cons c p ih =>
      intro fuel hflen hnop
      cases fuel with
      | zero => simp at hflen
      | succ f =>
        have hshape : (c :: p : Str) ++ old ++ rest = c :: (p ++ old ++ rest) := by simp
        rw [hshape, pyReplaceF_succ]
        have hpre : ¬ (old ≠ [] ∧ old.isPrefixOf (c :: (p ++ old ++ rest))) := by
          intro ⟨_, hp⟩
          apply hnop 0 (by simp)
          simp only [List.drop_zero, hshape]
          exact hp
        rw [if_neg hpre]
        show c :: pyReplaceF old new f (p ++ old ++ rest) = (c :: p) ++ new ++ _
        rw [ih f (by simp at hflen ⊢; omega)
          (fun i hi => by
            have := hnop (i + 1) (by simp; omega)
            simpa using this)]
        rfl
  exact hgen pre _ (le_refl _) hno

theorem pyReplace_unique {s pre old suf : Str} (new : Str) (hold : old ≠ [])
    (hs : s = pre ++ old ++ suf)
    (huniq : ∀ i < s.length, old.isPrefixOf (s.drop i) → i = pre.length) :
    pyReplace s old new = pre ++ new ++ suf := by
  subst hs
  have holdlen : 0 < old.length := List.length_pos.mpr hold
  have hlens : (pre ++ old ++ suf).length = pre.length + old.length + suf.length := by
    simp only [List.length_append]
  rw [pyReplace_first hold
    (fun i hi hp => by
      have := huniq i (by omega) hp
      omega)]
  congr 1
  apply pyReplace_no_occur hold
  intro j hj hp
  have hdrop : (pre ++ old ++ suf).drop (pre.length + old.length + j) = suf.drop j := by
    have hpl : pre.length + old.length + j = (pre ++ old).length + j := by
      simp only [List.length_append]
    rw [hpl, List.drop_append j]
  have hocc : old.isPrefixOf ((pre ++ old ++ suf).drop (pre.length + old.length + j)) := by
    rw [hdrop]
    exact hp
  have := huniq (pre.length + old.length + j) (by omega) hocc
  omega

/-- C3 corrected: `switch_direction` is a global substring replace, so its
rewrite is local to the occurrence's span exactly when that span has no
other textual copy in the query; under that uniqueness (and uniqueness of
the arrow substrings inside the span — `->` and `)-` for a
right-pointing occurrence, `<-` and `-(` for a left-pointing one) all
text outside the span is unchanged and the bracketed body is preserved
with only the arrowheads moved. -/
theorem c3_amended_local_when_unique (text pre suf u v x y : Str) (r : Rel)
    (htext : text = pre ++ r.m.whole ++ suf)
    (huw : ∀ i < text.length, (r.m.whole).isPrefixOf (text.drop i) → i = pre.length) :
    (r.direction = some ['>'] →
      r.m.whole = u ++ ['-', '>'] ++ v →
      (∀ i < r.m.whole.length,
        (['-', '>'] : Str).isPrefixOf (r.m.whole.drop i) → i = u.length) →
      u ++ ['-'] ++ v = x ++ [')', '-'] ++ y →
      (∀ i < (u ++ ['-'] ++ v).length,
        ([')', '-'] : Str).isPrefixOf ((u ++ ['-'] ++ v).drop i) → i = x.length) →
      switch_direction text r = .ok (pre ++ (x ++ [')', '<', '-'] ++ y) ++ suf)) ∧
    (r.direction = some ['<'] →
      r.m.whole = u ++ ['<', '-'] ++ v →
      (∀ i < r.m.whole.length,
        (['<', '-'] : Str).isPrefixOf (r.m.whole.drop i) → i = u.length) →
      u ++ ['-'] ++ v = x ++ ['-', '('] ++ y →
      (∀ i < (u ++ ['-'] ++ v).length,
        (['-', '('] : Str).isPrefixOf ((u ++ ['-'] ++ v).drop i) → i = x.length) →
      switch_direction text r = .ok (pre ++ (x ++ ['-', '>', '('] ++ y) ++ suf)) := by
  constructor
  · intro hd hw hu hx hxy
    unfold switch_direction
    rw [hd]
    rw [if_pos (by decide : ((some ['>'] : Option Str) == some ['>']) = true)]
    have h1 : pyReplace r.m.whole ['-', '>'] ['-'] = u ++ ['-'] ++ v :=
      pyReplace_unique ['-'] (by decide) hw hu
    have h2 : pyReplace (u ++ ['-'] ++ v) [')', '-'] [')', '<', '-'] =
        x ++ [')', '<', '-'] ++ y :=
      pyReplace_unique [')', '<', '-'] (by decide) hx hxy
    rw [h1, h2]
    have hwne : r.m.whole ≠ [] := by
      rw [hw]
      simp
    rw [pyReplace_unique (x ++ [')', '<', '-'] ++ y) hwne htext huw]
  · intro hd hw hu hx hxy
    unfold switch_direction
    rw [hd]
    rw [if_neg (by decide : ¬ ((some ['<'] : Option Str) == some ['>']) = true)]
    rw [if_pos (by decide : ((some ['<'] : Option Str) == some ['<']) = true)]
    have h1 : pyReplace r.m.whole ['<', '-'] ['-'] = u ++ ['-'] ++ v :=
      pyReplace_unique ['-'] (by decide) hw hu
    have h2 : pyReplace (u ++ ['-'] ++ v) ['-', '('] ['-', '>', '('] =
        x ++ ['-', '>', '('] ++ y :=
      pyReplace_unique ['-', '>', '('] (by decide) hx hxy
    rw [h1, h2]
    have hwne : r.m.whole ≠ [] := by
      rw [hw]
      simp
    rw [pyReplace_unique (x ++ ['-', '>', '('] ++ y) hwne htext huw]

def c3dup : Str := "(a:X)-[:R]->(b:Y) (a:X)-[:R]->(b:Y)".toList

def c3dupSchema : Schema := process_schema "(Y,R,X)".toList

def c3duprel : Rel :=
  ((detect_relationships c3dup c3dupSchema).toOption.getD []).headD default

/-- Counterexample to C3 as stated: the first occurrence needs a flip,
but `switch_direction` rewrites every textual copy of its span — the
second occurrence's text, outside the first occurrence's span, changes
too. -/
theorem c3_counterexample :
    c3duprel.m.whole = "(a:X)-[:R]->(b:Y)".toList ∧
    (find_relationship_in_schema c3duprel c3dupSchema).map
      (fun t => (t.is_correct, t.schema_match)) = .ok (some false, some true) ∧
    switch_direction c3dup c3duprel =
      .ok "(a:X)<-[:R]-(b:Y) (a:X)<-[:R]-(b:Y)".toList ∧
    "(a:X)<-[:R]-(b:Y) (a:X)<-[:R]-(b:Y)".toList ≠
      "(a:X)<-[:R]-(b:Y) (a:X)-[:R]->(b:Y)".toList := by decide

def c3wtext : Str := "MATCH (a:X)-[:R]->(b:Y) RETURN a".toList

def c3wrel : Rel :=
  ((detect_relationships c3wtext (process_schema "(Y,R,X)".toList)).toOption.getD
    []).headD default

def c3w2text : Str := "MATCH (a:X)<-[:R]-(b:Y) RETURN a".toList

def c3w2rel : Rel :=
  ((detect_relationships c3w2text (process_schema "(X,R,Y)".toList)).toOption.getD
    []).headD default

/-- Witness for the amended C3 in both directions: a right-pointing and a
left-pointing span, each occurring exactly once, are rewritten in place
with the surrounding text untouched. -/
theorem c3_witness :
    switch_direction c3wtext c3wrel = .ok "MATCH (a:X)<-[:R]-(b:Y) RETURN a".toList ∧
    switch_direction c3w2text c3w2rel = .ok "MATCH (a:X)-[:R]->(b:Y) RETURN a".toList := by
  constructor
  · have h := (c3_amended_local_when_unique c3wtext "MATCH ".toList " RETURN a".toList
      "(a:X)-[:R]".toList "(b:Y)".toList "(a:X".toList "[:R]-(b:Y)".toList c3wrel
      (by decide) (by decide)).1
      (by decide) (by decide) (by decide) (by decide) (by decide)
    rw [h]
    decide
  · have h := (c3_amended_local_when_unique c3w2text "MATCH ".toList " RETURN a".toList
      "(a:X)".toList "[:R]-(b:Y)".toList "(a:X)-[:R]".toList "b:Y)".toList c3w2rel
      (by decide) (by decide)).2
      (by decide) (by decide) (by decide) (by decide) (by decide)
    rw [h]
    decide

end CypherDir
